import Mathlib

/-!
Verification of the elfview remote-process patch engine against its
specification.  The definitions below are shallow embeddings of the C
functions in `src/utils/task.c`, `src/ultask.c` and `src/elf/note.c`;
machine integers are modelled as `Nat` with explicit reduction modulo
`2 ^ 64` wherever the C code can wrap.
-/

namespace ElfView

/-- 2^64, the modulus of `unsigned long` arithmetic on the supported targets. -/
def U64 : Nat := 18446744073709551616

/-- ULONG_MAX. -/
def ULONG_MAX : Nat := U64 - 1

/-- 64-bit unsigned subtraction `(a - b) mod 2^64` for `a b < 2^64`. -/
def u64sub (a b : Nat) : Nat := (a + (U64 - b % U64)) % U64

theorem u64sub_of_le {a b : Nat} (hba : b ≤ a) (ha : a < U64) :
    u64sub a b = a - b := by
  unfold u64sub U64 at *
  have hb : b % 18446744073709551616 = b := Nat.mod_eq_of_lt (lt_of_le_of_lt hba ha)
  rw [hb]
  omega

/- ===== C4: find_vma_span_area (src/utils/task.c:156-175) ===== -/

/-- A VMA interval `[start, end)` as stored in `struct vma_struct`. -/
structure VmaRange where
  start : Nat
  stop : Nat
deriving DecidableEq, Repr

/-- Shallow embedding of `find_vma_span_area`: walk the VMAs in ascending
rb-tree order; `next_vma->start - ivma->end >= size` (unsigned 64-bit
subtraction) returns `ivma->end`; running out of successors returns 0. -/
def find_vma_span_area : List VmaRange → Nat → Nat
  | [], _ => 0
  | [_], _ => 0
  | v :: w :: rest, size =>
      if size ≤ u64sub w.start v.stop then v.stop
      else find_vma_span_area (w :: rest) size

/-- The spec's description: the end of the first VMA whose successor starts
at least `size` bytes after that end, else 0 (exact arithmetic). -/
def first_gap_end : List VmaRange → Nat → Nat
  | [], _ => 0
  | [_], _ => 0
  | v :: w :: rest, size =>
      if v.stop + size ≤ w.start then v.stop
      else first_gap_end (w :: rest) size

/-- VMAs are sorted and non-overlapping: each end precedes the next start. -/
def vmas_sorted : List VmaRange → Bool
  | [] => true
  | [_] => true
  | v :: w :: rest => v.stop ≤ w.start && vmas_sorted (w :: rest)

/-- All interval bounds fit in 64 bits. -/
def vmas_bounded : List VmaRange → Bool
  | [] => true
  | v :: rest => (v.start < U64 && v.stop < U64) && vmas_bounded rest

/-- The two-VMA layout of the spec's span-search scenario. -/
def span_demo : List VmaRange :=
  [⟨0x400000, 0x401000⟩, ⟨0x500000, 0x501000⟩]

/-- C4: on a sorted non-overlapping VMA list, `find_vma_span_area` returns the
end address of the first VMA whose successor starts at least `size` bytes
after that end, and 0 when no such gap exists; on the concrete layout
`[0x400000,0x401000)`, `[0x500000,0x501000)` it returns `0x401000` for size
`0x80000` and `0` for size `0x200000`. -/
theorem c4_find_vma_span_area :
    (∀ (l : List VmaRange) (size : Nat), vmas_sorted l = true → vmas_bounded l = true →
      find_vma_span_area l size = first_gap_end l size) ∧
    find_vma_span_area span_demo 0x80000 = 0x401000 ∧
    find_vma_span_area span_demo 0x200000 = 0 := by
  refine ⟨?_, by decide, by decide⟩
  intro l size hs hb
  induction l with
  | nil => rfl
  | cons v rest ih =>
    cases rest with
    | nil => rfl
    | cons w rest' =>
      simp only [vmas_sorted, Bool.and_eq_true, decide_eq_true_eq] at hs
      simp only [vmas_bounded, Bool.and_eq_true, decide_eq_true_eq] at hb
      have hsub : u64sub w.start v.stop = w.start - v.stop :=
        u64sub_of_le hs.1 hb.2.1.1
      by_cases h : v.stop + size ≤ w.start
      · have h' : size ≤ w.start - v.stop := by omega
        simp [find_vma_span_area, first_gap_end, hsub, h, h']
      · have h' : ¬ size ≤ w.start - v.stop := by
          have := hs.1
          omega
        simp only [find_vma_span_area, first_gap_end, hsub, if_neg h, if_neg h']
        exact ih hs.2
          (by simp only [vmas_bounded, Bool.and_eq_true, decide_eq_true_eq]
              exact ⟨⟨hb.2.1.1, hb.2.1.2⟩, hb.2.2⟩)

/-- Witness: instantiate the sortedness hypotheses of C4 on the demo layout. -/
theorem c4_witness :
    find_vma_span_area span_demo 0x80000 = first_gap_end span_demo 0x80000 :=
  c4_find_vma_span_area.1 span_demo 0x80000 (by decide) (by decide)

/- ===== C3: task_open path canonicalisation (src/utils/task.c:1500-1542) ===== -/

/-- O_CREAT on Linux (octal 0100), nonzero on every supported target. -/
def O_CREAT : Nat := 64

/-- Shallow embedding of the canonicalisation guard in `task_open`:
the source tests `if (!(flags|O_CREAT))` before running
`readlink(3)` + `realpath(3)` on the controller side. -/
def task_open_canonicalises (flags : Nat) : Bool :=
  (flags ||| O_CREAT) == 0

/-- C3: the guard `!(flags|O_CREAT)` is false for every `flags` value, because
`flags | O_CREAT` is never 0 (`O_CREAT ≠ 0`); hence `task_open` never runs the
`readlink`+`realpath` canonicalisation, contradicting the claim that it runs
whenever `O_CREAT` is absent (the code clearly intends `!(flags & O_CREAT)`). -/
theorem c3_task_open_never_canonicalises :
    ∀ flags : Nat, task_open_canonicalises flags = false := by
  intro flags
  simp only [task_open_canonicalises, O_CREAT, beq_eq_false_iff_ne, ne_eq]
  intro h
  have h64 : (flags ||| 64).testBit 6 = true := by
    rw [Nat.testBit_or]
    have h6 : Nat.testBit 64 6 = true := by decide
    simp [h6]
  rw [h] at h64
  simp [Nat.zero_testBit] at h64

/- ===== C8: parse_config --map path validation (src/ultask.c:418-467) ===== -/

/-- Errno-derived exit codes used by `parse_config`. -/
def EEXIST : Nat := 17

/-- ENOENT errno value. -/
def ENOENT : Nat := 2

/-- EINVAL errno value. -/
def EINVAL : Nat := 22

/-- Controller-side view of a pathname: the results of `fexist`, `fregular`
and `fsize` on it. -/
structure PathProbe where
  fexist : Bool
  fregular : Bool
  fsize : Nat
deriving DecidableEq, Repr

/-- Shallow embedding of the `--map file=F` validation block of
`parse_config`.  `isAbs` is `map_file[0] == '/'`; `absFile` probes the path
itself, `cwdFile` probes `<target cwd>/F` for the relative branch.  `some c`
models `cmd_exit(c)` (modelled from the spec: `cmd_exit` terminates the
invocation with the given exit code); `none` means validation passed. -/
def parse_config_map_check (isAbs : Bool) (absFile cwdFile : PathProbe) :
    Option Nat :=
  let chosen := if isAbs then absFile else cwdFile
  if chosen.fexist = false then some EEXIST
  else if chosen.fregular = false then some ENOENT
  else if chosen.fsize = 0 then some EINVAL
  else none

/-- C8: for `--map file=F` with absolute `F`: a missing file exits with
`EEXIST`, an existing non-regular file exits with `ENOENT`, and an empty
regular file exits with `EINVAL`. -/
theorem c8_map_file_exit_codes :
    ∀ p q : PathProbe,
      (p.fexist = false → parse_config_map_check true p q = some EEXIST) ∧
      (p.fexist = true → p.fregular = false →
        parse_config_map_check true p q = some ENOENT) ∧
      (p.fexist = true → p.fregular = true → p.fsize = 0 →
        parse_config_map_check true p q = some EINVAL) := by
  intro p q
  refine ⟨?_, ?_, ?_⟩
  · intro h
    simp [parse_config_map_check, h]
  · intro h1 h2
    simp [parse_config_map_check, h1, h2]
  · intro h1 h2 h3
    simp [parse_config_map_check, h1, h2, h3]

/-- Witness for C8 at concrete probes. -/
theorem c8_witness :
    parse_config_map_check true ⟨false, false, 0⟩ ⟨true, true, 1⟩ = some EEXIST ∧
    parse_config_map_check true ⟨true, false, 0⟩ ⟨true, true, 1⟩ = some ENOENT ∧
    parse_config_map_check true ⟨true, true, 0⟩ ⟨true, true, 1⟩ = some EINVAL :=
  ⟨(c8_map_file_exit_codes ⟨false, false, 0⟩ ⟨true, true, 1⟩).1 rfl,
   (c8_map_file_exit_codes ⟨true, false, 0⟩ ⟨true, true, 1⟩).2.1 rfl rfl,
   (c8_map_file_exit_codes ⟨true, true, 0⟩ ⟨true, true, 1⟩).2.2 rfl rfl rfl⟩

/- ===== C7: VMA leader linkage (src/utils/task.c:89-104, 716-794) ===== -/

/-- Leader assignment performed by the `read_task_vmas` loop together with
`insert_vma`: each VMA starts as its own leader (`vma->leader = vma`), and
`insert_vma(task, vma, prev)` overrides it with `prev->leader` exactly when
the immediately preceding maps line has the same pathname.  `vma_leader names
i` is the index of the leader of the `i`-th parsed VMA. -/
def vma_leader (names : List (List Char)) : Nat → Nat
  | 0 => 0
  | i + 1 => if names.get? i = names.get? (i + 1) then vma_leader names i else i + 1

/-- The claim's leader: index of the first VMA with the given pathname. -/
def first_vma_with_name (names : List (List Char)) (n : List Char) : Nat :=
  names.findIdx (fun m => m = n)

/-- A maps listing in which the two VMAs of file `a` are separated by a VMA
of file `b`. -/
def interleaved_names : List (List Char) := [['a'], ['b'], ['a']]

/-- C7 counterexample: with maps lines for files a, b, a (the same file `a`
mapped at non-adjacent lines), the third VMA's leader is itself (index 2),
not the first VMA with the same pathname (index 0) as the claim states. -/
theorem c7_counterexample :
    vma_leader interleaved_names 2 = 2 ∧
    first_vma_with_name interleaved_names ['a'] = 0 ∧
    vma_leader interleaved_names 2 ≠ first_vma_with_name interleaved_names ['a'] := by
  refine ⟨by decide, by decide, by decide⟩

/-- `j` starts the maximal run of consecutive equal-pathname VMAs containing
`i`: `j ≤ i`, every index in `[j, i]` carries the same pathname as `i`, and
the run cannot be extended to the left. -/
def IsRunStart (names : List (List Char)) (i j : Nat) : Prop :=
  j ≤ i ∧ (∀ k, j ≤ k → k ≤ i → names.get? k = names.get? i) ∧
    (j = 0 ∨ names.get? (j - 1) ≠ names.get? j)

/-- C7 amended: after `read_task_vmas`, each VMA's leader is the first VMA of
the maximal run of consecutive maps lines sharing its pathname, not the first
VMA with that pathname overall; only adjacent same-pathname VMAs are grouped
under one leader. -/
theorem c7_leader_is_run_start :
    ∀ (names : List (List Char)) (i : Nat), IsRunStart names i (vma_leader names i) := by
  intro names i
  induction i with
  | zero =>
    simp only [IsRunStart, vma_leader]
    refine ⟨Nat.le_refl 0, ?_, Or.inl trivial⟩
    intro k hk1 hk2
    have hk : k = 0 := Nat.le_antisymm hk2 hk1
    rw [hk]
  | succ n ih =>
    by_cases h : names.get? n = names.get? (n + 1)
    · simp only [vma_leader, if_pos h]
      obtain ⟨h1, h2, h3⟩ := ih
      refine ⟨Nat.le_trans h1 (Nat.le_succ n), ?_, h3⟩
      intro k hk1 hk2
      rcases Nat.lt_or_ge k (n + 1) with hlt | hge
      · have := h2 k hk1 (Nat.lt_succ_iff.mp hlt)
        rw [this, h]
      · have : k = n + 1 := Nat.le_antisymm hk2 hge
        rw [this]
    · simp only [vma_leader, if_neg h]
      refine ⟨Nat.le_refl _, ?_, Or.inr (by simpa using h)⟩
      intro k hk1 hk2
      have : k = n + 1 := Nat.le_antisymm hk2 hk1
      rw [this]

/- ===== C2: task_vma_symbol_value (src/utils/task.c:424-483) ===== -/

/-- The fields of `struct vma_struct` consumed by symbol resolution and by
`vma_peek_phdr`: the mapping's start address, its file offset from
`/proc/PID/maps`, and the `p_vaddr`-derived `voffset`. -/
structure SymVma where
  start : Nat
  offset : Nat
  voffset : Nat
deriving DecidableEq, Repr

/-- The sibling walk of `task_vma_symbol_value`: `list_for_each_entry_safe`
over the leader's sibling list breaks at the first sibling with
`off < vma->offset`; when the loop runs off the end, the cursor is the
container of the list head, i.e. the leader itself. -/
def sibling_pick (leader : SymVma) : List SymVma → Nat → SymVma
  | [], _ => leader
  | s :: rest, off => if off < s.offset then s else sibling_pick leader rest off

/-- Shallow embedding of `task_vma_symbol_value` (the symbol's `vma` is
already required to be its own leader by the guard at the top of the
function): for a shared library, pick a sibling by file offset and return
`vma->start + (st_value - vma->offset)` in 64-bit arithmetic; otherwise
return `st_value` directly. -/
def task_vma_symbol_value (leader : SymVma) (is_share_lib : Bool)
    (sibs : List SymVma) (st_value : Nat) : Nat :=
  if is_share_lib then
    let vma := sibling_pick leader sibs st_value
    (vma.start + u64sub st_value vma.offset) % U64
  else
    st_value

/-- The claim's formula, stated from the spec's words: among the segments
ordered by `file_voffset`, the one containing `st_value`
(`file_voffset ≤ st_value <` next segment's `file_voffset`). -/
def spec_containing_segment : List SymVma → Nat → Option SymVma
  | [], _ => none
  | s :: rest, v =>
      if v < s.voffset then none
      else some ((spec_containing_segment rest v).getD s)

/-- Resolved address per the claim: `sibling.start + (st_value − file_voffset)`
of the containing segment. -/
def spec_symbol_value (segs : List SymVma) (v : Nat) : Nat :=
  match spec_containing_segment segs v with
  | some s => s.start + (v - s.voffset)
  | none => 0

/-- The four libc LOAD segments of the comment in `task_vma_symbol_value`,
mapped at 0x7f0000000000: the fourth has `p_offset 0x1f58d0` but
`p_vaddr 0x1f68d0`, so its VMA file offset (0x1f5000) differs from its
voffset. -/
def libc4_leader : SymVma := ⟨0x7f0000000000, 0, 0⟩

/-- libc executable segment VMA. -/
def libc4_s2 : SymVma := ⟨0x7f0000028000, 0x28000, 0x28000⟩

/-- libc rodata segment VMA. -/
def libc4_s3 : SymVma := ⟨0x7f000019d000, 0x19d000, 0x19d000⟩

/-- libc data segment VMA (`p_vaddr ≠ p_offset`). -/
def libc4_s4 : SymVma := ⟨0x7f00001f6000, 0x1f5000, 0x1f68d0⟩

/-- C2 counterexample: for a symbol with `st_value = 0x1f7000` living in the
fourth libc LOAD segment (whose `file_voffset 0x1f68d0` differs from its file
offset `0x1f5000`), the code returns `leader.start + st_value =
0x7f00001f7000` — it computes with file offsets — while the claim's
`sibling.start + (st_value − file_voffset)` formula yields `0x7f00001f6730`. -/
theorem c2_counterexample :
    task_vma_symbol_value libc4_leader true [libc4_s2, libc4_s3, libc4_s4] 0x1f7000
      = 0x7f00001f7000 ∧
    spec_symbol_value [libc4_leader, libc4_s2, libc4_s3, libc4_s4] 0x1f7000
      = 0x7f00001f6730 ∧
    (0x7f00001f7000 : Nat) ≠ 0x7f00001f6730 := by
  refine ⟨by decide, by decide, by decide⟩

/-- The spec's two-segment libc scenario: `r--` at 0x7f0000000000 (offset 0)
and `r-x` at 0x7f0000028000 (offset 0x28000, `p_vaddr` 0x28000). -/
def libc2_leader : SymVma := ⟨0x7f0000000000, 0, 0⟩

/-- Executable libc segment of the two-segment scenario. -/
def libc2_exec : SymVma := ⟨0x7f0000028000, 0x28000, 0x28000⟩

/-- C2 amended: the code resolves shared-library symbols with file offsets,
not file voffsets: it takes the first sibling (in sibling-list order) whose
file offset exceeds `st_value`, else the leader, and returns
`vma.start + (st_value − vma.offset) mod 2^64`.  Whenever every segment
satisfies `segment.start ≡ leader.start + segment.offset (mod 2^64)` (the
common layout) the result is `leader.start + st_value mod 2^64`; on the
spec's concrete libc layout, `printf` with `st_value 0x6f3d0` resolves to
`0x7f000006f3d0`. -/
theorem c2_symbol_value_amended :
    (∀ (leader : SymVma) (sibs : List SymVma) (st : Nat),
      leader.offset = 0 →
      (∀ s ∈ sibs, s.offset < U64 ∧ s.start % U64 = (leader.start + s.offset) % U64) →
      task_vma_symbol_value leader true sibs st = (leader.start + st) % U64) ∧
    task_vma_symbol_value libc2_leader true [libc2_exec] 0x6f3d0 = 0x7f000006f3d0 := by
  constructor
  · intro leader sibs st hl hs
    have hpick : ∀ sl : List SymVma,
        (∀ s ∈ sl, s.offset < U64 ∧ s.start % U64 = (leader.start + s.offset) % U64) →
        (sibling_pick leader sl st).offset < U64 ∧
          (sibling_pick leader sl st).start % U64
            = (leader.start + (sibling_pick leader sl st).offset) % U64 := by
      intro sl
      induction sl with
      | nil =>
        intro _
        constructor
        · simp only [sibling_pick, hl, U64]
          omega
        · simp [sibling_pick, hl]
      | cons s rest ih =>
        intro h
        simp only [sibling_pick]
        by_cases hc : st < s.offset
        · simp only [if_pos hc]
          exact h s (List.mem_cons_self s rest)
        · simp only [if_neg hc]
          exact ih (fun x hx => h x (List.mem_cons_of_mem s hx))
    obtain ⟨hoff, hstart⟩ := hpick sibs hs
    set vma := sibling_pick leader sibs st with hvma
    simp only [task_vma_symbol_value, if_pos rfl, ← hvma]
    have hmod : vma.offset % U64 = vma.offset := Nat.mod_eq_of_lt hoff
    unfold u64sub
    rw [hmod]
    rw [Nat.add_mod vma.start, hstart, Nat.mod_mod_of_dvd, ← Nat.add_mod]
    · have harg : leader.start + vma.offset + (st + (U64 - vma.offset))
          = leader.start + st + U64 := by
        have : vma.offset ≤ U64 := Nat.le_of_lt hoff
        omega
      rw [harg, Nat.add_mod_right]
      simp
    · exact Dvd.intro 1 rfl
  · decide

/-- Witness: the amended C2 statement applied to the spec's two-segment libc
layout and `printf`'s `st_value`. -/
theorem c2_witness :
    task_vma_symbol_value libc2_leader true [libc2_exec] 0x6f3d0
      = (libc2_leader.start + 0x6f3d0) % U64 :=
  c2_symbol_value_amended.1 libc2_leader [libc2_exec] 0x6f3d0 (by decide)
    (by intro s hs
        simp only [List.mem_singleton] at hs
        subst hs
        refine ⟨by decide, by decide⟩)

/- ===== C5: vma_peek_phdr (src/utils/task.c:372-412) ===== -/

/-- The program-header fields read by `vma_peek_phdr`. -/
structure PhdrRec where
  p_type : Nat
  p_vaddr : Nat
  p_align : Nat
deriving DecidableEq, Repr

/-- ELF `PT_LOAD` segment type. -/
def PT_LOAD : Nat := 1

/-- Modelled from the spec: `ALIGN_DOWN(x, a) = x & ~(a - 1)` in 64-bit
arithmetic (the macro lives in a utility header outside the core sources). -/
def ALIGN_DOWN (x a : Nat) : Nat :=
  x &&& (U64 - 1 - ((a + U64 - 1) % U64))

/-- One `PT_LOAD` iteration of the phdr loop acting on one sibling:
`off = ALIGN_DOWN(phdr->p_vaddr, phdr->p_align)`; a sibling whose file offset
equals `off` gets `voffset = phdr->p_vaddr`. -/
def apply_phdr (ph : PhdrRec) (s : SymVma) : SymVma :=
  if ph.p_type = PT_LOAD ∧ s.offset = ALIGN_DOWN ph.p_vaddr ph.p_align then
    { s with voffset := ph.p_vaddr }
  else s

/-- `lowest_vaddr = min(lowest_vaddr, phdr->p_vaddr)` for `PT_LOAD` entries. -/
def lowest_update (lowest : Nat) (ph : PhdrRec) : Nat :=
  if ph.p_type = PT_LOAD then (if lowest ≤ ph.p_vaddr then lowest else ph.p_vaddr)
  else lowest

/-- The phdr loop of `vma_peek_phdr`: updates every sibling and the running
lowest `PT_LOAD` vaddr, one program header at a time. -/
def peek_loop : List PhdrRec → List SymVma → Nat → List SymVma × Nat
  | [], sibs, lowest => (sibs, lowest)
  | ph :: rest, sibs, lowest =>
      peek_loop rest (sibs.map (apply_phdr ph)) (lowest_update lowest ph)

/-- Tail of `vma_peek_phdr` once the VMA is known to be ELF with a nonempty
program-header table: run the loop from `ULONG_MAX`; if no `PT_LOAD` lowered
the running minimum the function fails (returns -1), else
`load_offset = vma->start - lowest_vaddr` (64-bit subtraction). -/
def vma_peek_phdr_load (start : Nat) (phdrs : List PhdrRec) (sibs : List SymVma) :
    Option (Nat × List SymVma) :=
  let r := peek_loop phdrs sibs ULONG_MAX
  if r.2 = ULONG_MAX then none
  else some (u64sub start r.2, r.1)

/-- The `p_vaddr` values of the `PT_LOAD` headers, in table order. -/
def load_vaddrs : List PhdrRec → List Nat
  | [] => []
  | ph :: rest =>
      if ph.p_type = PT_LOAD then ph.p_vaddr :: load_vaddrs rest
      else load_vaddrs rest

/-- `ph` is a `PT_LOAD` whose `ALIGN_DOWN(p_vaddr, p_align)` equals `off`. -/
def matches_off (ph : PhdrRec) (off : Nat) : Prop :=
  ph.p_type = PT_LOAD ∧ off = ALIGN_DOWN ph.p_vaddr ph.p_align

/-- Cumulative effect of the phdr loop on a single sibling. -/
def apply_phdrs (phdrs : List PhdrRec) (s : SymVma) : SymVma :=
  phdrs.foldl (fun t ph => apply_phdr ph t) s

theorem apply_phdr_offset (ph : PhdrRec) (s : SymVma) :
    (apply_phdr ph s).offset = s.offset := by
  unfold apply_phdr
  by_cases h : ph.p_type = PT_LOAD ∧ s.offset = ALIGN_DOWN ph.p_vaddr ph.p_align
  · simp [h]
  · simp [h]

theorem apply_phdrs_offset (phdrs : List PhdrRec) (s : SymVma) :
    (apply_phdrs phdrs s).offset = s.offset := by
  induction phdrs generalizing s with
  | nil => rfl
  | cons ph rest ih =>
    show (apply_phdrs rest (apply_phdr ph s)).offset = s.offset
    rw [ih, apply_phdr_offset]

theorem apply_phdrs_no_match (phdrs : List PhdrRec) (s : SymVma)
    (h : ∀ ph ∈ phdrs, ¬ matches_off ph s.offset) :
    apply_phdrs phdrs s = s := by
  induction phdrs with
  | nil => rfl
  | cons ph rest ih =>
    have h1 : apply_phdr ph s = s := by
      unfold apply_phdr
      rw [if_neg]
      intro hc
      exact h ph (List.mem_cons_self ph rest) ⟨hc.1, hc.2⟩
    show apply_phdrs rest (apply_phdr ph s) = s
    rw [h1]
    exact ih (fun p hp => h p (List.mem_cons_of_mem ph hp))

theorem apply_phdrs_match (phdrs : List PhdrRec) (s : SymVma)
    (h : ∃ ph ∈ phdrs, matches_off ph s.offset) :
    ∃ ph ∈ phdrs, matches_off ph s.offset ∧
      (apply_phdrs phdrs s).voffset = ph.p_vaddr := by
  induction phdrs generalizing s with
  | nil =>
    obtain ⟨ph, hph, _⟩ := h
    exact absurd hph (List.not_mem_nil ph)
  | cons ph rest ih =>
    have hoffeq : (apply_phdr ph s).offset = s.offset := apply_phdr_offset ph s
    by_cases hrest : ∃ p ∈ rest, matches_off p s.offset
    · have hrest' : ∃ p ∈ rest, matches_off p (apply_phdr ph s).offset := by
        rw [hoffeq]
        exact hrest
      obtain ⟨p, hp, hm, hv⟩ := ih (apply_phdr ph s) hrest'
      rw [hoffeq] at hm
      exact ⟨p, List.mem_cons_of_mem ph hp, hm, hv⟩
    · obtain ⟨p0, hp0, hm0⟩ := h
      have hphm : matches_off ph s.offset := by
        rcases List.mem_cons.mp hp0 with h0 | h0
        · rw [← h0]
          exact hm0
        · exact absurd ⟨p0, h0, hm0⟩ hrest
      have h1 : apply_phdr ph s = { s with voffset := ph.p_vaddr } := by
        unfold apply_phdr
        rw [if_pos ⟨hphm.1, hphm.2⟩]
      have h2 : apply_phdrs rest (apply_phdr ph s) = apply_phdr ph s := by
        apply apply_phdrs_no_match
        rw [hoffeq]
        intro p hp hm
        exact hrest ⟨p, hp, hm⟩
      refine ⟨ph, List.mem_cons_self ph rest, hphm, ?_⟩
      show (apply_phdrs rest (apply_phdr ph s)).voffset = ph.p_vaddr
      rw [h2, h1]

theorem peek_loop_fst (phdrs : List PhdrRec) (sibs : List SymVma) (lowest : Nat) :
    (peek_loop phdrs sibs lowest).1 = sibs.map (apply_phdrs phdrs) := by
  induction phdrs generalizing sibs lowest with
  | nil =>
    simp only [peek_loop]
    exact (List.map_id sibs).symm
  | cons ph rest ih =>
    simp only [peek_loop]
    rw [ih, List.map_map]
    rfl

theorem peek_loop_snd (phdrs : List PhdrRec) (sibs : List SymVma) (lowest : Nat) :
    (peek_loop phdrs sibs lowest).2 = phdrs.foldl lowest_update lowest := by
  induction phdrs generalizing sibs lowest with
  | nil => rfl
  | cons ph rest ih =>
    simp only [peek_loop, List.foldl_cons]
    exact ih _ _

theorem foldl_lowest_le (phdrs : List PhdrRec) (init : Nat) :
    phdrs.foldl lowest_update init ≤ init ∧
      ∀ v ∈ load_vaddrs phdrs, phdrs.foldl lowest_update init ≤ v := by
  induction phdrs generalizing init with
  | nil =>
    exact ⟨Nat.le_refl _, fun v hv => absurd hv (List.not_mem_nil v)⟩
  | cons ph rest ih =>
    have step : lowest_update init ph ≤ init := by
      unfold lowest_update
      by_cases h1 : ph.p_type = PT_LOAD
      · by_cases h2 : init ≤ ph.p_vaddr <;> simp [h1, h2]
        omega
      · simp [h1]
    obtain ⟨ih1, ih2⟩ := ih (lowest_update init ph)
    constructor
    · exact Nat.le_trans ih1 step
    · intro v hv
      unfold load_vaddrs at hv
      by_cases h1 : ph.p_type = PT_LOAD
      · rw [if_pos h1] at hv
        rcases List.mem_cons.mp hv with h0 | h0
        · subst h0
          refine Nat.le_trans ih1 ?_
          unfold lowest_update
          rw [if_pos h1]
          by_cases h2 : init ≤ ph.p_vaddr <;> simp [h2]
        · exact ih2 v h0
      · rw [if_neg h1] at hv
        exact ih2 v hv

theorem foldl_lowest_mem (phdrs : List PhdrRec) (init : Nat) :
    phdrs.foldl lowest_update init = init ∨
      phdrs.foldl lowest_update init ∈ load_vaddrs phdrs := by
  induction phdrs generalizing init with
  | nil => exact Or.inl rfl
  | cons ph rest ih =>
    simp only [List.foldl_cons]
    rcases ih (lowest_update init ph) with h | h
    · rw [h]
      unfold lowest_update load_vaddrs
      by_cases h1 : ph.p_type = PT_LOAD
      · by_cases h2 : init ≤ ph.p_vaddr
        · simp [h1, h2]
        · simp [h1, h2]
      · simp [h1]
    · unfold load_vaddrs
      by_cases h1 : ph.p_type = PT_LOAD
      · rw [if_pos h1]
        exact Or.inr (List.mem_cons_of_mem _ h)
      · rw [if_neg h1]
        exact Or.inr h

/-- C5: when `vma_peek_phdr` succeeds, the computed `load_offset` is
`vma->start` minus the minimum `p_vaddr` over the `PT_LOAD` headers, and
every sibling whose file offset equals `ALIGN_DOWN(p_vaddr, p_align)` of some
`PT_LOAD` header ends with its voffset set to such a header's `p_vaddr`. -/
theorem c5_vma_peek_phdr :
    ∀ (start : Nat) (phdrs : List PhdrRec) (sibs : List SymVma)
      (lo : Nat) (sibs2 : List SymVma),
      vma_peek_phdr_load start phdrs sibs = some (lo, sibs2) →
      start < U64 →
      (∃ m ∈ load_vaddrs phdrs, (∀ v ∈ load_vaddrs phdrs, m ≤ v) ∧
        lo = u64sub start m ∧ (m ≤ start → lo = start - m)) ∧
      (∀ s2 ∈ sibs2, (∃ ph ∈ phdrs, matches_off ph s2.offset) →
        ∃ ph ∈ phdrs, matches_off ph s2.offset ∧ s2.voffset = ph.p_vaddr) := by
  intro start phdrs sibs lo sibs2 hsucc hstart
  unfold vma_peek_phdr_load at hsucc
  by_cases hfail : (peek_loop phdrs sibs ULONG_MAX).2 = ULONG_MAX
  · rw [if_pos hfail] at hsucc
    exact absurd hsucc (by simp)
  · rw [if_neg hfail] at hsucc
    have hlo : lo = u64sub start (peek_loop phdrs sibs ULONG_MAX).2 :=
      (Prod.mk.injEq _ _ _ _ ▸ (Option.some.injEq _ _ ▸ hsucc)).1.symm
    have hsibs2 : sibs2 = (peek_loop phdrs sibs ULONG_MAX).1 :=
      (Prod.mk.injEq _ _ _ _ ▸ (Option.some.injEq _ _ ▸ hsucc)).2.symm
    set m := (peek_loop phdrs sibs ULONG_MAX).2 with hm
    constructor
    · have hsnd := peek_loop_snd phdrs sibs ULONG_MAX
      have hmem := foldl_lowest_mem phdrs ULONG_MAX
      have hle := foldl_lowest_le phdrs ULONG_MAX
      rw [← hsnd] at hmem hle
      rcases hmem with hbad | hgood
      · exact absurd (hm ▸ hbad) hfail
      · refine ⟨m, hgood, fun v hv => hle.2 v hv, hlo, ?_⟩
        intro hms
        rw [hlo]
        exact u64sub_of_le hms hstart
    · intro s2 hs2 hex
      rw [hsibs2, peek_loop_fst] at hs2
      obtain ⟨s0, hs0, hmap⟩ := List.mem_map.mp hs2
      have hoeq : s2.offset = s0.offset := by
        rw [← hmap]
        exact apply_phdrs_offset phdrs s0
      obtain ⟨ph, hph, hmatch, hvo⟩ := apply_phdrs_match phdrs s0 (hoeq ▸ hex)
      refine ⟨ph, hph, ?_, ?_⟩
      · rw [hoeq]
        exact hmatch
      · rw [← hmap]
        exact hvo

/-- The four libc `PT_LOAD` headers from the comment in
`task_vma_symbol_value` (plus a `PT_DYNAMIC` entry), page aligned. -/
def libc_phdrs : List PhdrRec :=
  [⟨1, 0x0, 0x1000⟩, ⟨1, 0x28000, 0x1000⟩, ⟨1, 0x19d000, 0x1000⟩,
   ⟨1, 0x1f68d0, 0x1000⟩, ⟨2, 0x1f5000, 0x8⟩]

/-- The three non-leader libc sibling VMAs before `vma_peek_phdr`, voffsets
still zero. -/
def libc_sibs0 : List SymVma :=
  [⟨0x7f0000028000, 0x28000, 0⟩, ⟨0x7f000019d000, 0x19d000, 0⟩,
   ⟨0x7f00001f6000, 0x1f5000, 0⟩]

/-- Witness: C5 instantiated on the libc layout; `vma_peek_phdr` succeeds
with `load_offset 0x7f0000000000` and sets the voffsets of the two siblings
whose file offsets match an aligned `PT_LOAD` vaddr. -/
theorem c5_witness :
    ∃ m ∈ load_vaddrs libc_phdrs, (∀ v ∈ load_vaddrs libc_phdrs, m ≤ v) ∧
      0x7f0000000000 = u64sub 0x7f0000000000 m ∧
      (m ≤ 0x7f0000000000 → 0x7f0000000000 = 0x7f0000000000 - m) :=
  (c5_vma_peek_phdr 0x7f0000000000 libc_phdrs libc_sibs0 0x7f0000000000
    [⟨0x7f0000028000, 0x28000, 0x28000⟩, ⟨0x7f000019d000, 0x19d000, 0x19d000⟩,
     ⟨0x7f00001f6000, 0x1f5000, 0⟩]
    (by decide) (by decide)).1

/- ===== C6: open_task / read_task_vmas (src/utils/task.c:716-794, 925-1026) ===== -/

/-- GNU `basename(3)`: the suffix after the last `/` (empty for a trailing
slash), as used by `get_vma_type`. -/
def gnu_basename (s : List Char) : List Char :=
  s.foldl (fun acc c => if c = '/' then [] else acc ++ [c]) []

/-- VMA classification tags of `enum vma_type`. -/
inductive VmaType where
  | SELF | LIBC | LIBELF | HEAP | LD | STACK | VVAR | VDSO | VSYSCALL
  | LIB_DONT_KNOWN | ANON | NONE
deriving DecidableEq, Repr

/-- Shallow embedding of `get_vma_type`: classify a maps pathname against the
task's exe path, using `strncmp` prefix tests on the basename. -/
def get_vma_type (exe name : List Char) : VmaType :=
  if name = exe then VmaType.SELF
  else if "libc".toList.isPrefixOf (gnu_basename name)
       ∨ "libssp".toList.isPrefixOf (gnu_basename name) then VmaType.LIBC
  else if "libelf".toList.isPrefixOf (gnu_basename name) then VmaType.LIBELF
  else if name = "[heap]".toList then VmaType.HEAP
  else if "ld-linux".toList.isPrefixOf (gnu_basename name) then VmaType.LD
  else if name = "[stack]".toList then VmaType.STACK
  else if name = "[vvar]".toList then VmaType.VVAR
  else if name = "[vdso]".toList then VmaType.VDSO
  else if name = "[vsyscall]".toList then VmaType.VSYSCALL
  else if "lib".toList.isPrefixOf (gnu_basename name) then VmaType.LIB_DONT_KNOWN
  else if name = [] then VmaType.ANON
  else VmaType.NONE

/-- PROT_READ. -/
def PROT_READ : Nat := 1

/-- PROT_WRITE. -/
def PROT_WRITE : Nat := 2

/-- PROT_EXEC. -/
def PROT_EXEC : Nat := 4

/-- `__perms2prot`: translate the maps permission characters. -/
def perms2prot (perms : List Char) : Nat :=
  (if perms.getD 0 ' ' = 'r' then PROT_READ else 0) +
  (if perms.getD 1 ' ' = 'w' then PROT_WRITE else 0) +
  (if perms.getD 2 ' ' = 'x' then PROT_EXEC else 0)

/-- One parsed `/proc/PID/maps` line, restricted to the fields `open_task`'s
libc/stack detection reads. -/
structure MapsLine where
  perms : List Char
  name_ : List Char
deriving DecidableEq, Repr

/-- The libc-detection predicate of the `read_task_vmas` loop:
`vma->type == VMA_LIBC && vma->prot & PROT_EXEC`. -/
def is_exec_libc (exe : List Char) (l : MapsLine) : Bool :=
  get_vma_type exe l.name_ = VmaType.LIBC ∧ perms2prot l.perms &&& PROT_EXEC ≠ 0

/-- The stack-detection predicate: `vma->type == VMA_STACK`. -/
def is_stack (exe : List Char) (l : MapsLine) : Bool :=
  get_vma_type exe l.name_ = VmaType.STACK

/-- FTO_LIBC flag bit (task.h lies outside the core sources; only flag
identity matters here, modelled from the spec's flag list). -/
def FTO_LIBC : Nat := 1

/-- FTO_SELF flag bit. -/
def FTO_SELF : Nat := 2

/-- FTO_PROC flag bit. -/
def FTO_PROC : Nat := 16

/-- Environment outcomes of the controller-side calls made by `open_task`:
`open("/proc/PID/mem")`, `elf_file_open` on libc and on the exe, and the two
`mkdirat` calls for the work directory. -/
structure OpenOracle where
  memfd_ok : Bool
  libc_elf_ok : Bool
  exe_elf_ok : Bool
  mkdir_pid_ok : Bool
  mkdir_map_files_ok : Bool
deriving DecidableEq, Repr

/-- The fields of `struct task` the claim observes. -/
structure TaskModel where
  libc_vma : Option MapsLine
  stack : Option MapsLine
deriving DecidableEq, Repr

/-- Shallow embedding of `open_task`: open `/proc/PID/mem`, parse the maps
lines recording the first executable libc VMA and the first `[stack]` VMA,
fail (`return NULL`) if either is missing, then perform the flag-dependent
steps, each of which can also fail. -/
def open_task (o : OpenOracle) (flag : Nat) (exe : List Char)
    (lines : List MapsLine) : Option TaskModel :=
  if o.memfd_ok = false then none
  else
    let libc := lines.find? (is_exec_libc exe)
    let stack := lines.find? (is_stack exe)
    if libc.isNone ∨ stack.isNone then none
    else if flag &&& FTO_LIBC ≠ 0 ∧ o.libc_elf_ok = false then none
    else if flag &&& FTO_SELF ≠ 0 ∧ o.exe_elf_ok = false then none
    else if flag &&& FTO_PROC ≠ 0 ∧
            (o.mkdir_pid_ok = false ∨ o.mkdir_map_files_ok = false) then none
    else some ⟨libc, stack⟩

/-- C6: `open_task` returns NULL whenever the parsed maps contain no
executable libc VMA or no `[stack]` VMA, and every task it returns non-NULL
has both `libc_vma` and `stack` set. -/
theorem c6_open_task_requires_libc_stack :
    ∀ (o : OpenOracle) (flag : Nat) (exe : List Char) (lines : List MapsLine),
      (((∀ l ∈ lines, is_exec_libc exe l = false) ∨
        (∀ l ∈ lines, is_stack exe l = false)) →
        open_task o flag exe lines = none) ∧
      (∀ t, open_task o flag exe lines = some t →
        t.libc_vma.isSome = true ∧ t.stack.isSome = true) := by
  intro o flag exe lines
  constructor
  · intro h
    unfold open_task
    by_cases hmem : o.memfd_ok = false
    · simp [hmem]
    · rw [if_neg hmem]
      have hnone : (lines.find? (is_exec_libc exe)).isNone ∨
          (lines.find? (is_stack exe)).isNone := by
        rcases h with h | h
        · left
          rw [Option.isNone_iff_eq_none, List.find?_eq_none]
          intro l hl
          simp [h l hl]
        · right
          rw [Option.isNone_iff_eq_none, List.find?_eq_none]
          intro l hl
          simp [h l hl]
      simp only [if_pos hnone]
  · intro t ht
    unfold open_task at ht
    by_cases hmem : o.memfd_ok = false
    · rw [if_pos hmem] at ht
      exact absurd ht (by simp)
    · rw [if_neg hmem] at ht
      by_cases hns : (lines.find? (is_exec_libc exe)).isNone ∨
          (lines.find? (is_stack exe)).isNone
      · rw [if_pos hns] at ht
        exact absurd ht (by simp)
      · rw [if_neg hns] at ht
        push_neg at hns
        by_cases h1 : flag &&& FTO_LIBC ≠ 0 ∧ o.libc_elf_ok = false
        · rw [if_pos h1] at ht
          exact absurd ht (by simp)
        · rw [if_neg h1] at ht
          by_cases h2 : flag &&& FTO_SELF ≠ 0 ∧ o.exe_elf_ok = false
          · rw [if_pos h2] at ht
            exact absurd ht (by simp)
          · rw [if_neg h2] at ht
            by_cases h3 : flag &&& FTO_PROC ≠ 0 ∧
                (o.mkdir_pid_ok = false ∨ o.mkdir_map_files_ok = false)
            · rw [if_pos h3] at ht
              exact absurd ht (by simp)
            · rw [if_neg h3] at ht
              have := Option.some.injEq _ _ ▸ ht
              rw [← this]
              constructor
              · rw [Option.isSome_iff_ne_none]
                intro hc
                apply hns.1
                simp only [Option.isNone_iff_eq_none]
                exact hc
              · rw [Option.isSome_iff_ne_none]
                intro hc
                apply hns.2
                simp only [Option.isNone_iff_eq_none]
                exact hc

/-- A small maps listing with an executable libc VMA and a stack VMA. -/
def demo_lines : List MapsLine :=
  [⟨"r-xp".toList, "/usr/bin/cat".toList⟩,
   ⟨"r-xp".toList, "/usr/lib64/libc.so.6".toList⟩,
   ⟨"rw-p".toList, "[stack]".toList⟩]

/-- A maps listing with libc present but only non-executable, and no stack. -/
def demo_lines_nolibc : List MapsLine :=
  [⟨"r--p".toList, "/usr/lib64/libc.so.6".toList⟩]

/-- Witness: C6 instantiated on concrete listings — a listing without an
executable libc yields NULL, and on the good listing a returned task has
both fields set. -/
theorem c6_witness :
    open_task ⟨true, true, true, true, true⟩ 0 "/usr/bin/cat".toList
        demo_lines_nolibc = none ∧
    (open_task ⟨true, true, true, true, true⟩ 0 "/usr/bin/cat".toList demo_lines
        = some ⟨some ⟨"r-xp".toList, "/usr/lib64/libc.so.6".toList⟩,
                some ⟨"rw-p".toList, "[stack]".toList⟩⟩ →
      (some (⟨"r-xp".toList, "/usr/lib64/libc.so.6".toList⟩ : MapsLine)).isSome
          = true ∧
      (some (⟨"rw-p".toList, "[stack]".toList⟩ : MapsLine)).isSome = true) := by
  constructor
  · exact (c6_open_task_requires_libc_stack ⟨true, true, true, true, true⟩ 0
      "/usr/bin/cat".toList demo_lines_nolibc).1 (Or.inl (by decide))
  · intro ht
    exact (c6_open_task_requires_libc_stack ⟨true, true, true, true, true⟩ 0
      "/usr/bin/cat".toList demo_lines).2 _ ht

/- ===== C1: task_syscall (src/utils/task.c:1323-1429) ===== -/

/-- x86-64 `struct user_regs_struct`: the fifteen integer registers copied by
`copy_regs`, the instruction pointer set through `SYSCALL_IP`, and `rest`
standing for the remaining fields (rsp, eflags, segment registers, ...)
which are only ever copied wholesale. -/
structure UserRegs where
  r15 : Nat
  r14 : Nat
  r13 : Nat
  r12 : Nat
  rbp : Nat
  rbx : Nat
  r11 : Nat
  r10 : Nat
  r9 : Nat
  r8 : Nat
  rax : Nat
  rcx : Nat
  rdx : Nat
  rsi : Nat
  rdi : Nat
  rip : Nat
  rest : Nat
deriving DecidableEq, Repr

/-- `copy_regs(dst, src)` from task.c: copy the fifteen integer registers
used by syscalls from `src` into `dst`, leaving the others (here `rip` and
`rest`) untouched. -/
def copy_regs (dst src : UserRegs) : UserRegs :=
  { dst with
    r15 := src.r15, r14 := src.r14, r13 := src.r13, r12 := src.r12,
    rbp := src.rbp, rbx := src.rbx, r11 := src.r11, r10 := src.r10,
    r9 := src.r9, r8 := src.r8, rax := src.rax, rcx := src.rcx,
    rdx := src.rdx, rsi := src.rsi, rdi := src.rdi }

/-- Modelled from the spec: `SYSCALL_REGS_PREPARE(regs, nr, a1..a6)` writes
the syscall number and arguments into the x86-64 syscall ABI registers of the
(otherwise uninitialized) `syscall_regs` variable, whose remaining fields
keep their stack garbage `junk`. -/
def regs_prepare (junk : UserRegs) (nr a1 a2 a3 a4 a5 a6 : Nat) : UserRegs :=
  { junk with rax := nr, rdi := a1, rsi := a2, rdx := a3,
              r10 := a4, r8 := a5, r9 := a6 }

/-- Modelled from the spec: the x86-64 syscall instruction bytes `0F 05`
written over libc's first bytes. -/
def SYSCALL_INSTR : List Nat := [0x0f, 0x05]

/-- Target-process state observed by `task_syscall`: the scratch bytes at
`task->libc_vma->start` and the tracee's register set. -/
structure RemoteState where
  scratch : List Nat
  regs : UserRegs
deriving DecidableEq, Repr

/-- Outcomes of the ptrace operations inside one `task_syscall` sequence,
plus the tracee register set after the injected syscall instruction ran and
the stack garbage filling the uninitialized `syscall_regs` variable. -/
structure PtraceOracle where
  getregs_ok : Bool
  setregs_ok : Bool
  waitstop_ok : Bool
  getregs2_ok : Bool
  setregs_restore_ok : Bool
  post_regs : UserRegs
  junk_regs : UserRegs
  perrno : Nat
deriving DecidableEq, Repr

/-- Shallow embedding of `task_syscall`: save the register set and the libc
scratch bytes, poke the syscall instruction, marshal the prepared registers
with `SYSCALL_IP = libc_base`, continue to the next stop, read the result
registers, restore the saved register set, and — on every exit path after
the scratch write, via the `poke_back` label — restore the scratch bytes.
Returns (ret, value stored through `res`, final target state). -/
def task_syscall (st : RemoteState) (o : PtraceOracle)
    (libc_base nr a1 a2 a3 a4 a5 a6 : Nat) :
    Int × Option Nat × RemoteState :=
  if o.getregs_ok = false then (-(o.perrno : Int), none, st)
  else
    let old_regs := st.regs
    let orig_code := st.scratch
    let st1 : RemoteState := { st with scratch := SYSCALL_INSTR }
    let syscall_regs := regs_prepare o.junk_regs nr a1 a2 a3 a4 a5 a6
    let regs := copy_regs { old_regs with rip := libc_base } syscall_regs
    if o.setregs_ok = false then
      (-(o.perrno : Int), none, { st1 with scratch := orig_code })
    else
      let st2 : RemoteState := { st1 with regs := regs }
      if o.waitstop_ok = false then
        (-1, none, { st2 with scratch := orig_code })
      else
        let st3 : RemoteState := { st2 with regs := o.post_regs }
        if o.getregs2_ok = false then
          (-(o.perrno : Int), none, { st3 with scratch := orig_code })
        else if o.setregs_restore_ok = false then
          (-(o.perrno : Int), none, { st3 with scratch := orig_code })
        else
          let st4 : RemoteState := { st3 with regs := old_regs }
          (0, some o.post_regs.rax, { st4 with scratch := orig_code })

/-- An all-zero register file. -/
def zeroRegs : UserRegs := ⟨0, 0, 0, 0, 0, 0, 0, 0, 0, 0, 0, 0, 0, 0, 0, 0, 0⟩

/-- A pre-call state: original libc bytes `f3 0f` and a distinctive register
file (`rax = 7`, `rip = 0x401000`). -/
def demo_state : RemoteState :=
  ⟨[0xf3, 0x0f], { zeroRegs with rax := 7, rip := 0x401000 }⟩

/-- An oracle where GETREGS and SETREGS succeed but `wait_for_stop` fails
(the tracee stopped with SIGSEGV): `task_syscall` returns -1. -/
def demo_oracle_waitfail : PtraceOracle :=
  ⟨true, true, false, true, true, zeroRegs, zeroRegs, 3⟩

/-- C1 counterexample: a `task_syscall` call that returns with an error after
a successful SETREGS (here `wait_for_stop` failed) leaves the target's
registers at the marshalled syscall values — `poke_back` restores only the
scratch bytes — so the post-call register set differs from the pre-call one,
contradicting the claim for every returning call. -/
theorem c1_counterexample :
    (task_syscall demo_state demo_oracle_waitfail 0x7f0000000000 39 0 0 0 0 0 0).1
        = -1 ∧
    (task_syscall demo_state demo_oracle_waitfail
        0x7f0000000000 39 0 0 0 0 0 0).2.2.scratch = demo_state.scratch ∧
    (task_syscall demo_state demo_oracle_waitfail
        0x7f0000000000 39 0 0 0 0 0 0).2.2.regs ≠ demo_state.regs := by
  refine ⟨by decide, by decide, by decide⟩

/-- C1 amended: the scratch bytes at libc-base are restored on every exit
path of `task_syscall`; the register set is restored — and the syscall's
return value copied out into `*res` — only when the call returns success;
error returns taken after the register set was overwritten leave it
modified. -/
theorem c1_task_syscall_frame :
    ∀ (st : RemoteState) (o : PtraceOracle) (libc_base nr a1 a2 a3 a4 a5 a6 : Nat),
      0 < o.perrno →
      (task_syscall st o libc_base nr a1 a2 a3 a4 a5 a6).2.2.scratch
          = st.scratch ∧
      (0 ≤ (task_syscall st o libc_base nr a1 a2 a3 a4 a5 a6).1 →
        (task_syscall st o libc_base nr a1 a2 a3 a4 a5 a6).2.2.regs = st.regs ∧
        (task_syscall st o libc_base nr a1 a2 a3 a4 a5 a6).2.1
            = some o.post_regs.rax) := by
  intro st o libc_base nr a1 a2 a3 a4 a5 a6 hperrno
  have hneg : ¬ (0 ≤ (-(o.perrno : Int))) := by
    simp only [not_le]
    omega
  unfold task_syscall
  by_cases h1 : o.getregs_ok = false
  · simp only [if_pos h1]
    exact ⟨by trivial, fun habs => absurd habs hneg⟩
  · simp only [if_neg h1]
    by_cases h2 : o.setregs_ok = false
    · simp only [if_pos h2]
      exact ⟨by trivial, fun habs => absurd habs hneg⟩
    · simp only [if_neg h2]
      by_cases h3 : o.waitstop_ok = false
      · simp only [if_pos h3]
        refine ⟨by trivial, fun habs => absurd habs (by norm_num)⟩
      · simp only [if_neg h3]
        by_cases h4 : o.getregs2_ok = false
        · simp only [if_pos h4]
          exact ⟨by trivial, fun habs => absurd habs hneg⟩
        · simp only [if_neg h4]
          by_cases h5 : o.setregs_restore_ok = false
          · simp only [if_pos h5]
            exact ⟨by trivial, fun habs => absurd habs hneg⟩
          · simp only [if_neg h5]
            exact ⟨by trivial, fun _ => ⟨by trivial, by trivial⟩⟩

/-- An oracle for a fully successful sequence whose injected syscall returned
1234 (e.g. `getpid` on pid 1234). -/
def demo_oracle_ok : PtraceOracle :=
  ⟨true, true, true, true, true, { zeroRegs with rax := 1234 }, zeroRegs, 3⟩

/-- Witness: the amended C1 statement on a successful `getpid` sequence. -/
theorem c1_witness :
    (task_syscall demo_state demo_oracle_ok 0x7f0000000000 39 0 0 0 0 0 0).2.2.scratch
        = demo_state.scratch ∧
    (0 ≤ (task_syscall demo_state demo_oracle_ok 0x7f0000000000 39 0 0 0 0 0 0).1 →
      (task_syscall demo_state demo_oracle_ok
          0x7f0000000000 39 0 0 0 0 0 0).2.2.regs = demo_state.regs ∧
      (task_syscall demo_state demo_oracle_ok
          0x7f0000000000 39 0 0 0 0 0 0).2.1 = some demo_oracle_ok.post_regs.rax) :=
  c1_task_syscall_frame demo_state demo_oracle_ok 0x7f0000000000 39 0 0 0 0 0 0
    (by decide)

/- ===== C10: task_mmap / task_malloc (src/utils/task.c:1431-1444, 1481-1493) ===== -/

/-- `__NR_mmap` on x86-64. -/
def NR_mmap : Nat := 9

/-- Shallow embedding of `task_mmap`: run the remote `mmap` syscall; if the
ptrace sequence itself failed (`ret < 0`), return 0, otherwise return the raw
syscall result that was stored through `res`. -/
def task_mmap (st : RemoteState) (o : PtraceOracle)
    (libc_base addr length prot flags fd offset : Nat) : Nat :=
  let r := task_syscall st o libc_base NR_mmap addr length prot flags fd offset
  if r.1 < 0 then 0 else r.2.1.getD 0

/-- `(unsigned long)MAP_FAILED`. -/
def MAP_FAILED : Nat := U64 - 1

/-- MAP_PRIVATE | MAP_ANONYMOUS. -/
def MAP_PRIVATE_ANONYMOUS : Nat := 0x22

/-- Shallow embedding of `task_malloc`: anonymous RW `task_mmap` with
`fd = -1` (as an unsigned 64-bit argument); only a result equal to
`(unsigned long)MAP_FAILED` is turned into the failure value 0. -/
def task_malloc (st : RemoteState) (o : PtraceOracle)
    (libc_base length : Nat) : Nat :=
  let remote_addr := task_mmap st o libc_base 0 length
    (PROT_READ + PROT_WRITE) MAP_PRIVATE_ANONYMOUS (U64 - 1) 0
  if remote_addr = MAP_FAILED then 0 else remote_addr

/-- C10: when the ptrace sequence fails, `task_mmap` returns 0; when the
remote `mmap` executes and fails with `-e` (an unsigned value `2^64 - e`),
`task_mmap` passes that value through, and since `task_malloc` compares it
only against `(unsigned long)MAP_FAILED = 2^64 - 1`, every failing errno
`e ≠ 1` is returned to the caller as though it were a valid address. -/
theorem c10_task_malloc_errno_leak :
    ∀ (st : RemoteState) (o : PtraceOracle) (libc_base length e : Nat),
      (o.waitstop_ok = false →
        task_mmap st o libc_base 0 length (PROT_READ + PROT_WRITE)
          MAP_PRIVATE_ANONYMOUS (U64 - 1) 0 = 0) ∧
      (o.getregs_ok = true → o.setregs_ok = true → o.waitstop_ok = true →
        o.getregs2_ok = true → o.setregs_restore_ok = true →
        o.post_regs.rax = U64 - e → 1 < e → e < U64 →
        task_malloc st o libc_base length = U64 - e ∧ U64 - e ≠ 0) := by
  intro st o libc_base length e
  constructor
  · intro hws
    unfold task_mmap task_syscall
    by_cases h1 : o.getregs_ok = false
    · simp [h1]
    · simp only [if_neg h1]
      by_cases h2 : o.setregs_ok = false
      · simp [h2]
      · simp only [if_neg h2, if_pos hws]
        norm_num
  · intro hg hs hw hg2 hs2 hrax he1 he2
    have hsteps :
        task_syscall st o libc_base NR_mmap 0 length (PROT_READ + PROT_WRITE)
            MAP_PRIVATE_ANONYMOUS (U64 - 1) 0
          = (0, some o.post_regs.rax, st) := by
      unfold task_syscall
      rw [if_neg (by rw [hg]; decide),
          if_neg (by rw [hs]; decide),
          if_neg (by rw [hw]; decide),
          if_neg (by rw [hg2]; decide),
          if_neg (by rw [hs2]; decide)]
    have hmmap : task_mmap st o libc_base 0 length (PROT_READ + PROT_WRITE)
        MAP_PRIVATE_ANONYMOUS (U64 - 1) 0 = U64 - e := by
      unfold task_mmap
      rw [hsteps]
      simp [hrax]
    have hne : U64 - e ≠ MAP_FAILED := by
      unfold MAP_FAILED
      unfold U64 at he2 ⊢
      omega
    constructor
    · unfold task_malloc
      rw [hmmap, if_neg hne]
    · unfold U64 at he2 ⊢
      omega

/-- Witness: C10 at a concrete failing remote mmap (`-ENOMEM`, errno 12):
`task_malloc` returns `2^64 - 12` instead of 0, and a wait failure makes
`task_mmap` return 0. -/
theorem c10_witness :
    (task_malloc demo_state
        ⟨true, true, true, true, true, { zeroRegs with rax := U64 - 12 },
         zeroRegs, 3⟩ 0x7f0000000000 4096 = U64 - 12 ∧ U64 - 12 ≠ 0) ∧
    task_mmap demo_state demo_oracle_waitfail 0x7f0000000000 0 4096
        (PROT_READ + PROT_WRITE) MAP_PRIVATE_ANONYMOUS (U64 - 1) 0 = 0 :=
  ⟨(c10_task_malloc_errno_leak demo_state
      ⟨true, true, true, true, true, { zeroRegs with rax := U64 - 12 },
       zeroRegs, 3⟩ 0x7f0000000000 4096 12).2
      rfl rfl rfl rfl rfl rfl (by decide) (by decide),
   (c10_task_malloc_errno_leak demo_state demo_oracle_waitfail
      0x7f0000000000 4096 12).1 rfl⟩

/- ===== C9: elf_object_note build-ID extraction (src/elf/note.c:755-784) ===== -/

/-- Lowercase hex digit, as produced by `printf`'s `%02x` conversion. -/
def hex_digit (n : Nat) : Char :=
  if n < 10 then Char.ofNat (48 + n) else Char.ofNat (87 + n)

/-- High nibble of `sprintf(v, "%02x", (uint8_t)desc[i])`. -/
def byte_hex_hi (b : Nat) : Char := hex_digit (b % 256 / 16)

/-- Low nibble of the `%02x` conversion. -/
def byte_hex_lo (b : Nat) : Char := hex_digit (b % 256 % 16)

/-- A store into the malloc'ed `build_id` character buffer, modelled as a
pointwise-updated map from byte index to character. -/
def store (m : Nat → Char) (i : Nat) (c : Char) : Nat → Char :=
  fun j => if j = i then c else m j

/-- The hex-printing loop of the `NT_GNU_BUILD_ID` case: byte `i` of the
descriptor is written as two hex characters at buffer offsets `2*i` and
`2*i+1` (the source peels the last byte out of the `for` loop but writes the
same cells). -/
def build_id_loop : List Nat → Nat → (Nat → Char) → (Nat → Char)
  | [], _, m => m
  | b :: rest, i, m =>
      build_id_loop rest (i + 1)
        (store (store m (2 * i) (byte_hex_hi b)) (2 * i + 1) (byte_hex_lo b))

/-- `NT_GNU_BUILD_ID`. -/
def NT_GNU_BUILD_ID : Nat := 3

/-- Shallow embedding of the build-ID branch of `elf_object_note`: owner
name "GNU" (which also skips the earlier stapsdt / "GA"-attribute / FDO
branches), type `NT_GNU_BUILD_ID` and `descsz > 0` produce the hex string
with its terminating NUL at offset `2*descsz`; otherwise `elf->build_id` is
left unset. -/
def elf_object_note_build_id (name : List Char) (typ : Nat) (desc : List Nat)
    (init : Nat → Char) : Option (Nat → Char) :=
  if name = "GNU".toList ∧ typ = NT_GNU_BUILD_ID ∧ 0 < desc.length then
    some (store (build_id_loop desc 0 init) (2 * desc.length) (Char.ofNat 0))
  else none

/-- A character of the lowercase hex alphabet. -/
def is_lower_hex (c : Char) : Bool :=
  (decide ('0' ≤ c) && decide (c ≤ '9')) || (decide ('a' ≤ c) && decide (c ≤ 'f'))

theorem hex_digit_lower_hex : ∀ n, n < 16 → is_lower_hex (hex_digit n) = true := by
  decide

theorem build_id_loop_lower (desc : List Nat) :
    ∀ (i : Nat) (m : Nat → Char) (j : Nat), j < 2 * i →
      build_id_loop desc i m j = m j := by
  induction desc with
  | nil =>
    intro i m j _
    rfl
  | cons b rest ih =>
    intro i m j hj
    show build_id_loop rest (i + 1)
        (store (store m (2 * i) (byte_hex_hi b)) (2 * i + 1) (byte_hex_lo b)) j = m j
    rw [ih (i + 1) _ j (by omega)]
    unfold store
    rw [if_neg (by omega), if_neg (by omega)]

theorem build_id_loop_at (desc : List Nat) :
    ∀ (i : Nat) (m : Nat → Char) (k : Nat) (h : k < desc.length),
      build_id_loop desc i m (2 * (i + k)) = byte_hex_hi (desc.get ⟨k, h⟩) ∧
      build_id_loop desc i m (2 * (i + k) + 1) = byte_hex_lo (desc.get ⟨k, h⟩) := by
  induction desc with
  | nil =>
    intro i m k h
    exact absurd h (by simp)
  | cons b rest ih =>
    intro i m k h
    cases k with
    | zero =>
      constructor
      · show build_id_loop rest (i + 1)
            (store (store m (2 * i) (byte_hex_hi b)) (2 * i + 1) (byte_hex_lo b))
            (2 * (i + 0)) = byte_hex_hi ((b :: rest).get ⟨0, h⟩)
        rw [build_id_loop_lower rest (i + 1) _ (2 * (i + 0)) (by omega)]
        unfold store
        rw [if_neg (by omega), if_pos (by omega)]
        rfl
      · show build_id_loop rest (i + 1)
            (store (store m (2 * i) (byte_hex_hi b)) (2 * i + 1) (byte_hex_lo b))
            (2 * (i + 0) + 1) = byte_hex_lo ((b :: rest).get ⟨0, h⟩)
        rw [build_id_loop_lower rest (i + 1) _ (2 * (i + 0) + 1) (by omega)]
        unfold store
        rw [if_pos (by omega)]
        rfl
    | succ k' =>
      have h' : k' < rest.length := by
        simp only [List.length_cons] at h
        omega
      have := ih (i + 1)
        (store (store m (2 * i) (byte_hex_hi b)) (2 * i + 1) (byte_hex_lo b)) k' h'
      have harg : 2 * (i + 1 + k') = 2 * (i + (k' + 1)) := by omega
      rw [harg] at this
      exact this

/-- C9: when `elf_object_note` stores a build ID (owner "GNU", type
`NT_GNU_BUILD_ID`, `descsz > 0`), the stored buffer holds, for each
descriptor byte `k`, its two lowercase hex characters at offsets `2k` and
`2k+1`, and a terminating NUL at offset `2*descsz` — a NUL-terminated
lowercase hex string of length `2*descsz` encoding the bytes in order. -/
theorem c9_build_id_hex :
    ∀ (name : List Char) (typ : Nat) (desc : List Nat) (init : Nat → Char)
      (m : Nat → Char),
      elf_object_note_build_id name typ desc init = some m →
      (∀ (k : Nat) (h : k < desc.length),
        m (2 * k) = byte_hex_hi (desc.get ⟨k, h⟩) ∧
        m (2 * k + 1) = byte_hex_lo (desc.get ⟨k, h⟩) ∧
        is_lower_hex (m (2 * k)) = true ∧
        is_lower_hex (m (2 * k + 1)) = true) ∧
      m (2 * desc.length) = Char.ofNat 0 ∧ 0 < desc.length := by
  intro name typ desc init m hm
  unfold elf_object_note_build_id at hm
  by_cases hc : name = "GNU".toList ∧ typ = NT_GNU_BUILD_ID ∧ 0 < desc.length
  · rw [if_pos hc] at hm
    have hmeq : m = store (build_id_loop desc 0 init) (2 * desc.length)
        (Char.ofNat 0) := (Option.some.injEq _ _ ▸ hm).symm
    subst hmeq
    refine ⟨?_, ?_, hc.2.2⟩
    · intro k h
      have hat := build_id_loop_at desc 0 init k h
      have hz : 0 + k = k := Nat.zero_add k
      rw [hz] at hat
      have hne1 : 2 * k ≠ 2 * desc.length := by omega
      have hne2 : 2 * k + 1 ≠ 2 * desc.length := by omega
      have e1 : store (build_id_loop desc 0 init) (2 * desc.length)
          (Char.ofNat 0) (2 * k) = build_id_loop desc 0 init (2 * k) := by
        unfold store
        rw [if_neg hne1]
      have e2 : store (build_id_loop desc 0 init) (2 * desc.length)
          (Char.ofNat 0) (2 * k + 1) = build_id_loop desc 0 init (2 * k + 1) := by
        unfold store
        rw [if_neg hne2]
      refine ⟨e1.trans hat.1, e2.trans hat.2, ?_, ?_⟩
      · rw [e1, hat.1]
        exact hex_digit_lower_hex _ (by omega)
      · rw [e2, hat.2]
        exact hex_digit_lower_hex _ (by omega)
    · unfold store
      rw [if_pos rfl]
  · rw [if_neg hc] at hm
    exact absurd hm (by simp)

/-- Witness: the build-ID branch on descriptor bytes `49 c2` writes `4`,`9`,
`c`,`2` and the NUL terminator. -/
theorem c9_witness :
    (store (build_id_loop [0x49, 0xc2] 0 (fun _ => 'Z')) 4 (Char.ofNat 0)) 2
        = byte_hex_hi 0xc2 ∧
    (store (build_id_loop [0x49, 0xc2] 0 (fun _ => 'Z')) 4 (Char.ofNat 0)) 4
        = Char.ofNat 0 := by
  have h := c9_build_id_hex "GNU".toList 3 [0x49, 0xc2] (fun _ => 'Z')
      (store (build_id_loop [0x49, 0xc2] 0 (fun _ => 'Z')) 4 (Char.ofNat 0)) rfl
  exact ⟨(h.1 1 (by decide)).1, h.2.1⟩

end ElfView
